import Mathlib

/-!
Shallow embedding of the Momentum race-outcome engine
(`src/Momentum/Python/core/race_simulation.py`) together with the entity
records it consumes (`src/Momentum/Python/database/models.py`) and the two
configuration constants it reads (`src/Momentum/Python/config.py`).

Modelling conventions:
* Python floats are modelled as exact rationals (`ℚ`); every literal in the
  source is an exact decimal, so no rounding is lost.
* Python `dict`s keyed by `int` are modelled as insertion-ordered association
  lists `List (ℕ × α)`: assignment to an existing key updates the entry in
  place, assignment to a fresh key appends, and iteration follows list order —
  exactly the semantics of CPython dicts.
* The two pseudorandom streams owned by a `RaceSimulator` (its
  `np.random.RandomState(seed)` and the global `random` module reseeded by
  `random.seed(seed)` in `__init__`) are modelled as abstract streams of
  draws plus a cursor.  `RandomState.normal(mu, sigma)` returns
  `mu + sigma * z` where `z` is the next standard-normal draw — the numeric
  content of the seeded Mersenne Twister is not modelled, so theorems
  quantify over the streams, which covers every seed.
* Fallible code is modelled with `Except`: evaluating
  `context.race_state` in `_generate_race_results` (source line 260) raises
  `AttributeError` in Python, because `SimulationContext` declares no
  `race_state` field and no code ever attaches one.
* Entity fields the engine never reads (names, nationalities, career totals,
  biographies, …) are omitted from the records.
-/

/-- `Driver` (models.py): the engine reads `id`, the five `[0,1]` attributes
and `current_team_id` (which is `Optional[int]`). -/
structure Driver where
  id : ℕ
  skill : ℚ
  consistency : ℚ
  aggression : ℚ
  racecraft : ℚ
  adaptability : ℚ
  current_team_id : Option ℕ
  deriving DecidableEq, Repr

/-- `Team` (models.py): the engine reads `tier` (a string, one of
`"tier1"`, `"tier2"`, `"tier3"`) and `budget`. -/
structure Team where
  id : ℕ
  tier : String
  budget : ℚ
  deriving DecidableEq, Repr

/-- `Track` (models.py): the engine reads `surface_type` (a string) and
`difficulty`. -/
structure Track where
  id : ℕ
  surface_type : String
  difficulty : ℚ
  weather_impact : ℚ
  overtaking_difficulty : ℚ
  deriving DecidableEq, Repr

/-- `Race` (models.py): the engine reads only `id`. -/
structure Race where
  id : ℕ
  deriving DecidableEq, Repr

/-- `RaceResult` (models.py). `team_id` is filled from
`driver.current_team_id`, which may be `None`, hence `Option ℕ`. -/
structure RaceResult where
  id : ℕ
  race_id : ℕ
  driver_id : ℕ
  team_id : Option ℕ
  position : ℕ
  points : ℕ
  fastest_lap : Bool
  dnf_reason : Option String
  grid_position : ℕ
  deriving DecidableEq, Repr

/-- `SimulationContext` (race_simulation.py lines 13–21).  Note that the
dataclass has NO `race_state` field; `_generate_race_results` nevertheless
reads `context.race_state`. -/
structure SimulationContext where
  race : Race
  track : Track
  drivers : List Driver
  teams : List (ℕ × Team)
  weather_factor : ℚ := 1
  tire_degradation : ℚ := 1/10
  deriving DecidableEq, Repr

/-- `MONTE_CARLO_ITERATIONS` (config.py). -/
def MONTE_CARLO_ITERATIONS : ℕ := 1000

/-- `RANDOM_SEED` (config.py). -/
def RANDOM_SEED : ℕ := 42

/-! ### Python `dict` operations on insertion-ordered association lists -/

/-- `d[k] = v`: update in place if `k` is present, else append. -/
def dinsert : List (ℕ × α) → ℕ → α → List (ℕ × α)
  | [], k, v => [(k, v)]
  | p :: d, k, v => if p.1 = k then (k, v) :: d else p :: dinsert d k v

/-- `d.get(k)` / `d[k]`: the value at the first matching key. -/
def dget : List (ℕ × α) → ℕ → Option α
  | [], _ => none
  | p :: d, k => if p.1 = k then some p.2 else dget d k

/-- `d.get(k)` where `k` itself is `Optional[int]`: `d.get(None)` is `None`
because the dict is keyed by `int`. -/
def dgetOpt (d : List (ℕ × α)) : Option ℕ → Option α
  | none => none
  | some k => dget d k

/-- Mutation `d[k] = f d[k]` of an existing entry: keys and order are
untouched.  (Python raises `KeyError` on a missing key; every use in the
engine is on a key known to be present, and a missing key is a no-op here.) -/
def dmodify (d : List (ℕ × α)) (k : ℕ) (f : α → α) : List (ℕ × α) :=
  d.map (fun p => if p.1 = k then (p.1, f p.2) else p)

/-- The keys of a dict, in iteration order. -/
def dkeys (d : List (ℕ × α)) : List ℕ :=
  d.map (·.1)

/-! ### The two pseudorandom streams owned by a `RaceSimulator`

`__init__` (lines 26–28) does `self.rng = np.random.RandomState(seed)` and
`random.seed(seed)`.  `normals` is the stream of standard-normal draws that
`self.rng.normal` consumes, `nk` its cursor; `uniform` drives the global
`random` module (used only by `random.choice`), `uk` its cursor. -/
structure RNG where
  normals : ℕ → ℚ
  nk : ℕ
  uniform : ℕ → ℕ
  uk : ℕ

/-- `self.rng.normal(mean, sd)`: mean + sd · (next standard-normal draw). -/
def RNG.normal (g : RNG) (mean sd : ℚ) : ℚ × RNG :=
  (mean + sd * g.normals g.nk, { g with nk := g.nk + 1 })

/-- `random.choice(seq)` consumes one draw of the global stream and picks an
index below `n` (for `n > 0` the index is in range; which index corresponds
to which underlying draw is abstracted). -/
def RNG.choiceIdx (g : RNG) (n : ℕ) : ℕ × RNG :=
  (g.uniform g.uk % n, { g with uk := g.uk + 1 })

/-- `RaceSimulator(seed)`: both streams are freshly seeded, cursors at 0.
`normals` and `uniform` stand for the streams the seed determines. -/
def mkRaceSimulator (normals : ℕ → ℚ) (uniform : ℕ → ℕ) : RNG :=
  { normals := normals, nk := 0, uniform := uniform, uk := 0 }

/-! ### Stable sorting (`sorted` / `list.sort`)

CPython's `sorted` is a stable sort.  `sortBy prec` is a stable insertion
sort: `prec y x = true` means an already-placed `y` strictly precedes the
element `x` being inserted, so ties keep their original order. -/

def insertBy (prec : α → α → Bool) (x : α) : List α → List α
  | [] => [x]
  | y :: ys => if prec y x then y :: insertBy prec x ys else x :: y :: ys

def sortBy (prec : α → α → Bool) : List α → List α
  | [] => []
  | x :: xs => insertBy prec x (sortBy prec xs)

/-- `enumerate(l, start)` turned into a position dict: the `i`-th key of `l`
(a key-value pair) is mapped to position `start + i`. -/
def assign_positions (start : ℕ) : List (ℕ × α) → List (ℕ × ℕ)
  | [] => []
  | p :: ps => (p.1, start) :: assign_positions (start + 1) ps

/-! ### The performance model (pure per-driver functions) -/

/-- `_calculate_team_performance` (lines 144–153). -/
def calculate_team_performance (team : Team) : ℚ :=
  let base_performance :=
    if team.tier = "tier1" then 4/5 + (team.budget / 400) * (1/5)
    else if team.tier = "tier2" then 3/5 + (team.budget / 150) * (1/5)
    else 2/5 + (team.budget / 80) * (1/5)
  min base_performance 1

/-- `_calculate_driver_form` (lines 155–159): one `normal(0, 0.05)` draw. -/
def calculate_driver_form (driver : Driver) (g : RNG) : ℚ × RNG :=
  let base_form := (driver.skill + driver.consistency + driver.racecraft) / 3
  let fv := g.normal 0 (1/20)
  (max (1/10) (min 1 (base_form + fv.1)), fv.2)

/-- `_calculate_weather_impact` (lines 161–168). -/
def calculate_weather_impact (driver : Driver) (context : SimulationContext) : ℚ :=
  if context.weather_factor = 1 then 1
  else
    let wet_skill := driver.adaptability * (3/5) + driver.skill * (2/5)
    4/5 + wet_skill * (1/5)

/-- `_calculate_track_suitability` (lines 170–186). -/
def calculate_track_suitability (driver : Driver) (track : Track) : ℚ :=
  let suitability :=
    if track.surface_type = "tarmac" then
      driver.skill * (1/2) + driver.racecraft * (3/10) + driver.consistency * (1/5)
    else if track.surface_type = "gravel" then
      driver.adaptability * (1/2) + driver.skill * (3/10) + driver.aggression * (1/5)
    else
      driver.adaptability * (2/5) + driver.skill * (3/10) + driver.racecraft * (3/10)
  let difficulty_factor := 1 - track.difficulty * (1 - driver.adaptability) * (1/5)
  suitability * difficulty_factor

/-- `_simulate_strategy_impact` (lines 188–202). -/
def simulate_strategy_impact (driver : Driver) (context : SimulationContext) : ℚ :=
  match dgetOpt context.teams driver.current_team_id with
  | none => 1/2
  | some team =>
    let strategy_quality := 1/2 + calculate_team_performance team * (3/10)
    let execution_quality := driver.racecraft
    (strategy_quality + execution_quality) / 2

/-! ### `_initialize_race_state` (lines 46–82) -/

/-- The mutable `state` dict of `_initialize_race_state`, as a record. -/
structure RaceState where
  grid_positions : List (ℕ × ℕ)
  car_performance : List (ℕ × ℚ)
  driver_form : List (ℕ × ℚ)

/-- The `qualifying_times` dict (lines 54–68): drivers whose
`current_team_id` does not resolve in `context.teams` are skipped. -/
def qualifying_times (context : SimulationContext) : List (ℕ × ℚ) :=
  context.drivers.foldl (fun qt driver =>
    match dgetOpt context.teams driver.current_team_id with
    | none => qt
    | some team =>
      let base_time : ℚ := 100
      let driver_factor :=
        driver.skill * (2/5) + driver.consistency * (3/10) + driver.racecraft * (3/10)
      let team_factor := calculate_team_performance team
      let track_factor := 1 - context.track.difficulty * driver.adaptability * (1/10)
      dinsert qt driver.id (base_time * (2 - driver_factor) * (2 - team_factor) * track_factor)) []

/-- `_initialize_race_state`: grid from the stable ascending sort of the
qualifying times (lines 70–73), then car performance and driver form per
resolvable driver, drawing one form perturbation each (lines 75–80). -/
def initialize_race_state (context : SimulationContext) (g : RNG) : RaceState × RNG :=
  let sorted_drivers := sortBy (fun a b => a.2 < b.2) (qualifying_times context)
  let grid_positions := assign_positions 1 sorted_drivers
  let cpdf := context.drivers.foldl
    (fun (acc : List (ℕ × ℚ) × List (ℕ × ℚ) × RNG) driver =>
      match dgetOpt context.teams driver.current_team_id with
      | none => acc
      | some team =>
        let cp := dinsert acc.1 driver.id (calculate_team_performance team)
        let fg := calculate_driver_form driver acc.2.2
        (cp, dinsert acc.2.1 driver.id fg.1, fg.2))
    ([], [], g)
  (⟨grid_positions, cpdf.1, cpdf.2.1⟩, cpdf.2.2)

/-! ### `_simulate_single_race_iteration` (lines 109–142) -/

/-- The loop body of lines 113–136 for one driver: `none` when the driver is
skipped (`driver.id not in race_state['car_performance']`), otherwise the
trial score together with the advanced stream (one `normal(1.0, 0.1)` luck
draw).  `race_state['driver_form'][driver.id]` is present whenever the
car-performance entry is (both are filled by the same loop of
`_initialize_race_state`); the `getD 0` default is never exercised on states
the engine builds. -/
def driver_trial_score (context : SimulationContext) (race_state : RaceState)
    (driver : Driver) (g : RNG) : Option (ℚ × RNG) :=
  match dget race_state.car_performance driver.id with
  | none => none
  | some base_performance =>
    let driver_performance := (dget race_state.driver_form driver.id).getD 0
    let luck := g.normal 1 (1/10)
    let weather_impact := calculate_weather_impact driver context
    let track_suitability := calculate_track_suitability driver context.track
    let strategy_impact := simulate_strategy_impact driver context
    let total_performance :=
      (base_performance * (2/5) + driver_performance * (3/10) +
        weather_impact * (1/10) + track_suitability * (1/10) +
        strategy_impact * (1/10)) * luck.1
    some (total_performance, luck.2)

/-- One Monte Carlo trial: per-driver scores, then positions 1.. by the
stable descending sort on score (`sorted(..., reverse=True)`, lines 138–140). -/
def simulate_single_race_iteration (context : SimulationContext)
    (race_state : RaceState) (g : RNG) : List (ℕ × ℕ) × RNG :=
  let rp := context.drivers.foldl
    (fun (acc : List (ℕ × ℚ) × RNG) driver =>
      match driver_trial_score context race_state driver acc.2 with
      | none => acc
      | some tg => (dinsert acc.1 driver.id tg.1, tg.2))
    ([], g)
  let sorted_performance := sortBy (fun a b => a.2 > b.2) rp.1
  (assign_positions 1 sorted_performance, rp.2)

/-! ### `_run_monte_carlo_simulation` (lines 84–107) -/

/-- Plain iteration of the trial loop body. -/
def iterate (f : α → α) : ℕ → α → α
  | 0, x => x
  | n + 1, x => iterate f n (f x)

/-- The body of the `for iteration in range(...)` loop (lines 88–95): one
trial, then each returned position with `1 <= position <= len(drivers)`
increments that driver's histogram cell. -/
def mc_step (context : SimulationContext) (race_state : RaceState)
    (s : List (ℕ × List ℕ) × RNG) : List (ℕ × List ℕ) × RNG :=
  let outcome := simulate_single_race_iteration context race_state s.2
  (outcome.1.foldl (fun pc p =>
      if 1 ≤ p.2 ∧ p.2 ≤ context.drivers.length then
        dmodify pc p.1 (fun c => c.set (p.2 - 1) (c.getD (p.2 - 1) 0 + 1))
      else pc)
    s.1, outcome.2)

/-- `np.argmax`: index of the first maximum of a histogram (0 on `[]`). -/
def argmaxIdx (l : List ℕ) : ℕ :=
  (l.foldl (fun (acc : ℕ × ℕ × ℕ) v =>
    if v > acc.2.1 then (acc.2.2, v, acc.2.2 + 1) else (acc.1, acc.2.1, acc.2.2 + 1))
    (0, 0, 0)).1

/-- One step of the conflict-resolution walk (lines 217–235): a lone
claimant of a contested position gets the next free final position; a group
is ordered by descending skill (ids with no matching driver are dropped by
the lookup of lines 226–229) and its members get consecutive positions. -/
def resolve_step (position_groups : List (ℕ × List ℕ)) (drivers : List Driver)
    (acc : List (ℕ × ℕ) × ℕ) (position : ℕ) : List (ℕ × ℕ) × ℕ :=
  let driver_ids := (dget position_groups position).getD []
  match driver_ids with
  | [d] => (acc.1 ++ [(d, acc.2)], acc.2 + 1)
  | _ =>
    let driver_skills := driver_ids.filterMap (fun did =>
      (drivers.find? (fun dr => dr.id == did)).map (fun dr => (did, dr.skill)))
    let sortedSkills := sortBy (fun a b => a.2 > b.2) driver_skills
    sortedSkills.foldl (fun (a2 : List (ℕ × ℕ) × ℕ) q =>
      (a2.1 ++ [(q.1, a2.2)], a2.2 + 1)) acc

/-- `_resolve_position_conflicts` (lines 204–237): group driver ids by
claimed position, then walk the group keys in ascending order handing out
consecutive final positions via `resolve_step`. -/
def resolve_position_conflicts (positions : List (ℕ × ℕ)) (drivers : List Driver) :
    List (ℕ × ℕ) :=
  let position_groups := positions.foldl
    (fun pg p => dinsert pg p.2 ((dget pg p.2).getD [] ++ [p.1])) []
  let sortedKeys := sortBy (fun a b => a < b) (dkeys position_groups)
  (sortedKeys.foldl (resolve_step position_groups drivers) ([], 1)).1

/-- `_run_monte_carlo_simulation`: histograms for EVERY driver of the
context (line 86 — also the ones whose team does not resolve), the trial
loop, first-maximum positions (`np.argmax`, line 101), then conflict
resolution. -/
def run_monte_carlo_simulation (context : SimulationContext)
    (race_state : RaceState) (g : RNG) : List (ℕ × ℕ) × RNG :=
  let position_counts := context.drivers.foldl
    (fun pc driver => dinsert pc driver.id (List.replicate context.drivers.length 0)) []
  let pcg := iterate (mc_step context race_state) MONTE_CARLO_ITERATIONS (position_counts, g)
  let final_positions := pcg.1.foldl
    (fun fp p => dinsert fp p.1 (argmaxIdx p.2 + 1)) []
  (resolve_position_conflicts final_positions context.drivers, pcg.2)

/-! ### `_generate_race_results` (lines 239–272) -/

/-- The exception `simulate_race` lets escape:
`AttributeError` — `'SimulationContext' object has no attribute 'race_state'`
(line 260). -/
inductive SimError where
  | attributeError
  deriving DecidableEq, Repr

/-- `points_system` (line 242). -/
def points_system : List ℕ := [25, 18, 15, 12, 10, 8, 6, 4, 2, 1]

/-- The points expression of line 249:
`points_system[position - 1] if position <= len(points_system) else 0`.
(Positions handed to it are always ≥ 1.) -/
def pointsFor (position : ℕ) : ℕ :=
  if position ≤ points_system.length then points_system.getD (position - 1) 0 else 0

/-- The result-building loop (lines 244–262).  For the first driver whose id
is in `final_positions`, evaluating the `RaceResult(...)` call reads
`context.race_state` for the `grid_position` argument — an attribute
`SimulationContext` does not have — so Python raises `AttributeError` before
any record is created.  `points` (line 249) is computed first and discarded
with the stack frame. -/
def build_results (final_positions : List (ℕ × ℕ)) :
    List Driver → Except SimError (List RaceResult)
  | [] => .ok []
  | d :: ds =>
    match dget final_positions d.id with
    | none => build_results final_positions ds
    | some position =>
      let _points := pointsFor position
      .error SimError.attributeError

/-- Flag the `idx`-th element with `position ≤ 10` of the remaining list
(`seen` counts the ones already passed), and give it the bonus point —
the functional rendering of mutating the object `random.choice` picked. -/
def flagFastest (idx : ℕ) : List RaceResult → ℕ → List RaceResult
  | [], _ => []
  | r :: rs, seen =>
    if r.position ≤ 10 then
      if seen = idx then
        { r with fastest_lap := true, points := r.points + 1 } :: rs
      else r :: flagFastest idx rs (seen + 1)
    else r :: flagFastest idx rs seen

/-- Lines 264–270: if any results exist and some have `position <= 10`,
`random.choice` picks one of those and it gets the flag and a bonus point. -/
def assign_fastest_lap (results : List RaceResult) (g : RNG) :
    List RaceResult × RNG :=
  if results.isEmpty then (results, g)
  else
    let top_10 := results.filter (fun r => r.position ≤ 10)
    if top_10.isEmpty then (results, g)
    else
      let ig := g.choiceIdx top_10.length
      (flagFastest ig.1 results 0, ig.2)

/-- `_generate_race_results`: build the records (aborting with the
`AttributeError` of line 260 as soon as one is constructed), assign the
fastest lap, and return the list sorted ascending by position (line 272). -/
def generate_race_results (context : SimulationContext)
    (final_positions : List (ℕ × ℕ)) (g : RNG) :
    Except SimError (List RaceResult) × RNG :=
  match build_results final_positions context.drivers with
  | .error e => (.error e, g)
  | .ok results =>
    let rg := assign_fastest_lap results g
    (.ok (sortBy (fun a b => a.position < b.position) rg.1), rg.2)

/-- `simulate_race` (lines 30–44): the three pipeline stages in order. -/
def simulate_race (g : RNG) (context : SimulationContext) :
    Except SimError (List RaceResult) × RNG :=
  let rs := initialize_race_state context g
  let fp := run_monte_carlo_simulation context rs.1 rs.2
  generate_race_results context fp.1 fp.2

/-! ### Auxiliary definitions used by statements and concrete instances -/

/-- The tier's base offset (the additive floor of the tier-scaled factor):
0.8 / 0.6 / 0.4 for tier1 / tier2 / everything else. -/
def tier_base (team : Team) : ℚ :=
  if team.tier = "tier1" then 4/5
  else if team.tier = "tier2" then 3/5
  else 2/5

/-- A pseudorandom state whose abstract draws are all zero; the concrete
facts below do not depend on the drawn values. -/
def zero_rng : RNG := mkRaceSimulator (fun _ => 0) (fun _ => 0)

/-- A dry tarmac track of middling difficulty. -/
def track_tarmac : Track :=
  { id := 1, surface_type := "tarmac", difficulty := 1/2,
    weather_impact := 1/2, overtaking_difficulty := 1/2 }

/-- A tier-1 team. -/
def team_t1 : Team := { id := 7, tier := "tier1", budget := 200 }

def driver_a : Driver :=
  { id := 1, skill := 9/10, consistency := 4/5, aggression := 1/2,
    racecraft := 7/10, adaptability := 3/5, current_team_id := some 7 }

def driver_b : Driver :=
  { id := 2, skill := 1/2, consistency := 3/5, aggression := 1/2,
    racecraft := 1/2, adaptability := 1/2, current_team_id := some 7 }

def driver_c : Driver :=
  { id := 3, skill := 1/5, consistency := 2/5, aggression := 1/2,
    racecraft := 2/5, adaptability := 2/5, current_team_id := some 7 }

/-- The three-driver field of the spec's §8 example: skills 0.9 / 0.5 / 0.2,
identical tier-1 team, dry weather, tarmac track. -/
def ctx_three : SimulationContext :=
  { race := ⟨1⟩, track := track_tarmac, drivers := [driver_a, driver_b, driver_c],
    teams := [(7, team_t1)] }

/-- A single-driver field whose team resolves. -/
def ctx_single : SimulationContext :=
  { race := ⟨2⟩, track := track_tarmac, drivers := [driver_a],
    teams := [(7, team_t1)] }

/-- A driver whose `current_team_id` (99) is absent from the team mapping. -/
def driver_unresolved : Driver :=
  { id := 5, skill := 1, consistency := 1/2, aggression := 1/2,
    racecraft := 1/2, adaptability := 1/2, current_team_id := some 99 }

/-- A context whose only driver has an unresolvable team reference. -/
def ctx_unresolved : SimulationContext :=
  { race := ⟨3⟩, track := track_tarmac, drivers := [driver_unresolved], teams := [] }

/-- A tier-1 team with a negative budget. -/
def team_below_floor : Team := { id := 11, tier := "tier1", budget := -400 }

/-- A tier-2 team with a zero budget. -/
def team_zero_budget : Team := { id := 12, tier := "tier2", budget := 0 }

/-- A driver with all form-relevant attributes at the boundary of `[0,1]`. -/
def form_driver : Driver :=
  { id := 9, skill := 0, consistency := 0, aggression := 0,
    racecraft := 0, adaptability := 0, current_team_id := none }

/-- A pre-bonus result record at position 1 with the flag clear. -/
def result_p1 : RaceResult :=
  { id := 0, race_id := 1, driver_id := 1, team_id := some 7, position := 1,
    points := 25, fastest_lap := false, dnf_reason := none, grid_position := 1 }

/-- A race-state fixture: driver 9 carries car performance 1/2 and form 1/2. -/
def rs_fixture : RaceState :=
  { grid_positions := [(9, 1)], car_performance := [(9, 1/2)],
    driver_form := [(9, 1/2)] }

/-- A wet-weather context holding only `form_driver`. -/
def ctx_wet : SimulationContext :=
  { race := ⟨4⟩, track := track_tarmac, drivers := [form_driver], teams := [],
    weather_factor := 1/2 }

/-! ## Lemmas about the dict operations -/

theorem dget_dinsert_self (d : List (ℕ × α)) (k : ℕ) (v : α) :
    dget (dinsert d k v) k = some v := by
  induction d with
  | nil => simp [dinsert, dget]
  | cons p d ih =>
    by_cases h : p.1 = k
    · simp [dinsert, dget, h]
    · simp [dinsert, dget, h, ih]

theorem dget_dinsert_ne (d : List (ℕ × α)) (k k' : ℕ) (v : α) (h : k' ≠ k) :
    dget (dinsert d k v) k' = dget d k' := by
  induction d with
  | nil => simp [dinsert, dget, Ne.symm h]
  | cons p d ih =>
    by_cases hp : p.1 = k
    · simp [dinsert, dget, hp, Ne.symm h]
    · by_cases hp' : p.1 = k'
      · simp [dinsert, dget, hp, hp', h]
      · simp [dinsert, dget, hp, hp', ih]

theorem mem_dkeys_dinsert (d : List (ℕ × α)) (k k' : ℕ) (v : α) :
    k' ∈ dkeys (dinsert d k v) ↔ k' = k ∨ k' ∈ dkeys d := by
  induction d with
  | nil => simp [dinsert, dkeys]
  | cons p d ih =>
    by_cases h : p.1 = k
    · have he : dinsert (p :: d) k v = (k, v) :: d := by simp [dinsert, h]
      rw [he]
      simp only [dkeys, List.map_cons, List.mem_cons, h]
      tauto
    · simp only [dinsert, if_neg h, dkeys, List.map_cons, List.mem_cons] at *
      tauto

theorem dkeys_dmodify (d : List (ℕ × α)) (k : ℕ) (f : α → α) :
    dkeys (dmodify d k f) = dkeys d := by
  induction d with
  | nil => rfl
  | cons p d ih =>
    by_cases h : p.1 = k <;>
      simp only [dmodify, dkeys, List.map_cons] at * <;> simp [h, ih]

theorem dget_isSome_iff (d : List (ℕ × α)) (k : ℕ) :
    (dget d k).isSome ↔ k ∈ dkeys d := by
  induction d with
  | nil => simp [dget, dkeys]
  | cons p d ih =>
    by_cases h : p.1 = k
    · simp [dget, dkeys, h]
    · simp only [dget, if_neg h, dkeys, List.map_cons, List.mem_cons] at *
      rw [ih]
      constructor
      · exact Or.inr
      · rintro (hh | hh)
        · exact absurd hh.symm h
        · exact hh

theorem dget_eq_none_of_not_mem (d : List (ℕ × α)) (k : ℕ)
    (h : k ∉ dkeys d) : dget d k = none := by
  have := (dget_isSome_iff d k).not.mpr h
  cases hh : dget d k with
  | none => rfl
  | some v => rw [hh] at this; simp at this

/-- Any left fold whose step keeps existing keys and adds the key `f b` of
the processed element covers both the carried-in keys and the keys of the
whole list. -/
theorem mem_dkeys_foldl (g : List (ℕ × α) → β → List (ℕ × α)) (f : β → ℕ)
    (h1 : ∀ a b k, k ∈ dkeys a → k ∈ dkeys (g a b))
    (h2 : ∀ a b, f b ∈ dkeys (g a b)) :
    ∀ (l : List β) (acc : List (ℕ × α)) (k : ℕ),
      (k ∈ dkeys acc ∨ ∃ b ∈ l, f b = k) → k ∈ dkeys (l.foldl g acc)
  | [], acc, k, h => by
    simpa using h.resolve_right (by simp)
  | b :: l, acc, k, h => by
    simp only [List.foldl_cons]
    refine mem_dkeys_foldl g f h1 h2 l (g acc b) k ?_
    rcases h with h | ⟨b', hb', hfb⟩
    · exact Or.inl (h1 _ _ _ h)
    · rcases List.mem_cons.mp hb' with rfl | hb'
      · exact Or.inl (hfb ▸ h2 acc b')
      · exact Or.inr ⟨b', hb', hfb⟩

/-- A left fold whose step never changes the key list. -/
theorem dkeys_foldl_const (g : List (ℕ × α) → β → List (ℕ × α))
    (hg : ∀ a b, dkeys (g a b) = dkeys a) :
    ∀ (l : List β) (acc : List (ℕ × α)), dkeys (l.foldl g acc) = dkeys acc
  | [], acc => rfl
  | b :: l, acc => by
    simp only [List.foldl_cons]
    rw [dkeys_foldl_const g hg l (g acc b), hg]

/-! ## Lemmas about the stable sort -/

theorem perm_insertBy (prec : α → α → Bool) (x : α) :
    ∀ l : List α, List.Perm (insertBy prec x l) (x :: l)
  | [] => List.Perm.refl _
  | y :: ys => by
    by_cases h : prec y x = true
    · simp only [insertBy, if_pos h]
      exact ((perm_insertBy prec x ys).cons y).trans (List.Perm.swap x y ys)
    · simp only [insertBy, if_neg h]
      exact List.Perm.refl _

theorem perm_sortBy (prec : α → α → Bool) :
    ∀ l : List α, List.Perm (sortBy prec l) l
  | [] => List.Perm.refl _
  | x :: xs =>
    (perm_insertBy prec x (sortBy prec xs)).trans ((perm_sortBy prec xs).cons x)

theorem mem_sortBy (prec : α → α → Bool) (l : List α) (a : α) :
    a ∈ sortBy prec l ↔ a ∈ l :=
  (perm_sortBy prec l).mem_iff

/-- The insertion sort orders its output by `R` whenever `prec` is the
strict test deciding `R`. -/
theorem pairwise_insertBy (prec : α → α → Bool) (R : α → α → Prop)
    (hR1 : ∀ a b, prec a b = true → R a b)
    (hR2 : ∀ a b, prec a b = false → R b a)
    (hRt : Transitive R) (x : α) :
    ∀ l : List α, l.Pairwise R → (insertBy prec x l).Pairwise R
  | [], _ => List.pairwise_singleton R x
  | y :: ys, hp => by
    rcases List.pairwise_cons.mp hp with ⟨hy, hys⟩
    by_cases h : prec y x = true
    · simp only [insertBy, if_pos h]
      refine List.pairwise_cons.mpr ⟨?_, pairwise_insertBy prec R hR1 hR2 hRt x ys hys⟩
      intro z hz
      rcases List.mem_cons.mp ((perm_insertBy prec x ys).mem_iff.mp hz) with rfl | hz
      · exact hR1 _ _ h
      · exact hy z hz
    · simp only [insertBy, if_neg h]
      refine List.pairwise_cons.mpr ⟨?_, hp⟩
      intro z hz
      rcases List.mem_cons.mp hz with rfl | hz
      · exact hR2 _ _ (by simpa using h)
      · exact hRt (hR2 _ _ (by simpa using h)) (hy z hz)

theorem pairwise_sortBy (prec : α → α → Bool) (R : α → α → Prop)
    (hR1 : ∀ a b, prec a b = true → R a b)
    (hR2 : ∀ a b, prec a b = false → R b a)
    (hRt : Transitive R) :
    ∀ l : List α, (sortBy prec l).Pairwise R
  | [] => List.Pairwise.nil
  | x :: xs =>
    pairwise_insertBy prec R hR1 hR2 hRt x (sortBy prec xs)
      (pairwise_sortBy prec R hR1 hR2 hRt xs)

/-- Stability of the ascending sort, as filter-invariance: the entries
carrying any one fixed sort key keep exactly their input order. -/
theorem filter_eq_insertBy (t : ℚ) (x : ℕ × ℚ) :
    ∀ l : List (ℕ × ℚ),
      (insertBy (fun a b => decide (a.2 < b.2)) x l).filter (fun p => decide (p.2 = t)) =
        ((x :: l).filter (fun p => decide (p.2 = t)))
  | [] => rfl
  | y :: ys => by
    by_cases h : y.2 < x.2
    · have hx : insertBy (fun a b => decide (a.2 < b.2)) x (y :: ys) =
          y :: insertBy (fun a b => decide (a.2 < b.2)) x ys := by
        simp [insertBy, h]
      rw [hx]
      by_cases hy : y.2 = t
      · have hxt : ¬x.2 = t := hy ▸ ne_of_gt h
        simp [List.filter_cons, hy, hxt, filter_eq_insertBy t x ys]
      · simp [List.filter_cons, hy, filter_eq_insertBy t x ys]
    · have hx : insertBy (fun a b => decide (a.2 < b.2)) x (y :: ys) = x :: y :: ys := by
        simp [insertBy, h]
      rw [hx]

theorem filter_eq_sortBy (t : ℚ) :
    ∀ l : List (ℕ × ℚ),
      (sortBy (fun a b => decide (a.2 < b.2)) l).filter (fun p => decide (p.2 = t)) =
        l.filter (fun p => decide (p.2 = t))
  | [] => rfl
  | x :: xs => by
    have hstep := filter_eq_insertBy t x (sortBy (fun a b => decide (a.2 < b.2)) xs)
    simp only [sortBy]
    rw [hstep]
    by_cases hx : x.2 = t <;> simp [List.filter_cons, hx, filter_eq_sortBy t xs]

/-! ## Every driver id of the context ends up with a final position

The `position_counts` dict of `_run_monte_carlo_simulation` (line 86) is
keyed by EVERY driver of the context — including those whose team reference
does not resolve.  The trial loop never changes the key set, `np.argmax`
gives every key a most-likely position (an all-zero histogram yields
position 1), and the conflict resolver hands a final position to every id
that matches some driver of the context.  Hence every driver of the context
is in the domain of `final_positions`. -/

theorem dkeys_mc_step (context : SimulationContext) (race_state : RaceState)
    (s : List (ℕ × List ℕ) × RNG) :
    dkeys (mc_step context race_state s).1 = dkeys s.1 := by
  unfold mc_step
  apply dkeys_foldl_const
  intro a b
  by_cases h : 1 ≤ b.2 ∧ b.2 ≤ context.drivers.length <;>
    simp [h, dkeys_dmodify]

theorem dkeys_iterate_mc_step (context : SimulationContext) (race_state : RaceState) :
    ∀ (n : ℕ) (s : List (ℕ × List ℕ) × RNG),
      dkeys ((iterate (mc_step context race_state) n s).1) = dkeys s.1
  | 0, s => rfl
  | n + 1, s => by
    rw [iterate, dkeys_iterate_mc_step context race_state n, dkeys_mc_step]

/-- Membership in a position group built by the fold of lines 206–211. -/
theorem mem_group_foldl (k pos : ℕ) :
    ∀ (positions : List (ℕ × ℕ)) (acc : List (ℕ × List ℕ)),
      ((k, pos) ∈ positions ∨ k ∈ (dget acc pos).getD []) →
      k ∈ (dget (positions.foldl
        (fun pg p => dinsert pg p.2 ((dget pg p.2).getD [] ++ [p.1])) acc) pos).getD []
  | [], acc, h => by simpa using h.resolve_left (by simp)
  | p :: ps, acc, h => by
    simp only [List.foldl_cons]
    refine mem_group_foldl k pos ps _ ?_
    rcases h with h | h
    · rcases List.mem_cons.mp h with h | h
      · rw [← h]
        refine Or.inr ?_
        rw [dget_dinsert_self]
        simp
      · exact Or.inl h
    · by_cases hpos : pos = p.2
      · subst hpos
        refine Or.inr ?_
        rw [dget_dinsert_self]
        simp
        exact Or.inl h
      · refine Or.inr ?_
        rw [dget_dinsert_ne _ _ _ _ hpos]
        exact h

/-- The sequential-assignment inner fold of the conflict branch covers both
the already-assigned ids and the ids of the processed list. -/
theorem mem_dkeys_assign_foldl (k : ℕ) :
    ∀ (l : List (ℕ × ℚ)) (acc : List (ℕ × ℕ) × ℕ),
      (k ∈ dkeys acc.1 ∨ ∃ q ∈ l, q.1 = k) →
      k ∈ dkeys ((l.foldl (fun (a2 : List (ℕ × ℕ) × ℕ) q =>
        (a2.1 ++ [(q.1, a2.2)], a2.2 + 1)) acc).1)
  | [], acc, h => by simpa using h.resolve_right (by simp)
  | q :: l, acc, h => by
    simp only [List.foldl_cons]
    refine mem_dkeys_assign_foldl k l _ ?_
    rcases h with h | ⟨q', hq', hk⟩
    · left
      simp [dkeys, List.map_append]
      exact Or.inl (by simpa [dkeys] using h)
    · rcases List.mem_cons.mp hq' with rfl | hq'
      · left
        simp [dkeys, List.map_append, hk]
      · exact Or.inr ⟨q', hq', hk⟩

theorem mem_dkeys_resolve_step_mono (groups : List (ℕ × List ℕ))
    (drivers : List Driver) (acc : List (ℕ × ℕ) × ℕ) (pos k : ℕ)
    (h : k ∈ dkeys acc.1) :
    k ∈ dkeys ((resolve_step groups drivers acc pos).1) := by
  unfold resolve_step
  cases hids : (dget groups pos).getD [] with
  | nil => simpa using h
  | cons d rest =>
    cases rest with
    | nil =>
      simp only []
      simp [dkeys, List.map_append]
      exact Or.inl (by simpa [dkeys] using h)
    | cons d2 rest2 =>
      exact mem_dkeys_assign_foldl k _ _ (Or.inl h)

theorem mem_dkeys_resolve_step_self (groups : List (ℕ × List ℕ))
    (drivers : List Driver) (acc : List (ℕ × ℕ) × ℕ) (pos k : ℕ)
    (hmem : k ∈ (dget groups pos).getD [])
    (hdr : ∃ dr ∈ drivers, dr.id = k) :
    k ∈ dkeys ((resolve_step groups drivers acc pos).1) := by
  unfold resolve_step
  cases hids : (dget groups pos).getD [] with
  | nil => rw [hids] at hmem; simp at hmem
  | cons d rest =>
    rw [hids] at hmem
    cases rest with
    | nil =>
      simp only [List.mem_cons, List.not_mem_nil, or_false] at hmem
      subst hmem
      simp [dkeys, List.map_append]
    | cons d2 rest2 =>
      refine mem_dkeys_assign_foldl k _ _ (Or.inr ?_)
      obtain ⟨dr, hdr', hid⟩ := hdr
      have hfind : ∃ dr0, (drivers.find? (fun x => x.id == k)) = some dr0 := by
        have : (drivers.find? (fun x => x.id == k)).isSome := by
          rw [List.find?_isSome]
          exact ⟨dr, hdr', by simpa using hid⟩
        exact Option.isSome_iff_exists.mp this
      obtain ⟨dr0, hdr0⟩ := hfind
      refine ⟨(k, dr0.skill), ?_, rfl⟩
      rw [mem_sortBy]
      rw [List.mem_filterMap]
      exact ⟨k, hmem, by rw [hdr0]; rfl⟩

theorem mem_dkeys_resolve_foldl_mono (groups : List (ℕ × List ℕ))
    (drivers : List Driver) (k : ℕ) :
    ∀ (keysList : List ℕ) (acc : List (ℕ × ℕ) × ℕ), k ∈ dkeys acc.1 →
      k ∈ dkeys ((keysList.foldl (resolve_step groups drivers) acc).1)
  | [], _, h => h
  | p :: ps, acc, h =>
    mem_dkeys_resolve_foldl_mono groups drivers k ps _
      (mem_dkeys_resolve_step_mono groups drivers acc p k h)

theorem mem_dkeys_resolve_foldl (groups : List (ℕ × List ℕ))
    (drivers : List Driver) (k pos : ℕ)
    (hmem : k ∈ (dget groups pos).getD [])
    (hdr : ∃ dr ∈ drivers, dr.id = k) :
    ∀ (keysList : List ℕ) (acc : List (ℕ × ℕ) × ℕ), pos ∈ keysList →
      k ∈ dkeys ((keysList.foldl (resolve_step groups drivers) acc).1)
  | [], _, h => absurd h (by simp)
  | p :: ps, acc, h => by
    simp only [List.foldl_cons]
    rcases List.mem_cons.mp h with rfl | h
    · exact mem_dkeys_resolve_foldl_mono groups drivers k ps _
        (mem_dkeys_resolve_step_self groups drivers acc pos k hmem hdr)
    · exact mem_dkeys_resolve_foldl groups drivers k pos hmem hdr ps _ h

/-- Every id of `positions` that matches a driver of the context is in the
domain of the resolver's output. -/
theorem mem_dkeys_resolve (positions : List (ℕ × ℕ)) (drivers : List Driver)
    (k : ℕ) (hk : k ∈ dkeys positions) (hdr : ∃ dr ∈ drivers, dr.id = k) :
    k ∈ dkeys (resolve_position_conflicts positions drivers) := by
  obtain ⟨p, hp, hp1⟩ := List.mem_map.mp hk
  have hkp : (k, p.2) ∈ positions := by
    have : (k, p.2) = p := by
      cases p
      simp_all
    rw [this]
    exact hp
  have hg := mem_group_foldl k p.2 positions [] (Or.inl hkp)
  have hpos : p.2 ∈ dkeys (positions.foldl
      (fun pg q => dinsert pg q.2 ((dget pg q.2).getD [] ++ [q.1])) []) := by
    by_contra hc
    rw [dget_eq_none_of_not_mem _ _ hc] at hg
    simp at hg
  unfold resolve_position_conflicts
  refine mem_dkeys_resolve_foldl _ drivers k p.2 hg hdr _ _ ?_
  rw [mem_sortBy]
  exact hpos

/-- EVERY driver of the context — whether or not its team reference
resolves — is given a final position by `_run_monte_carlo_simulation`. -/
theorem mem_dkeys_final_positions (context : SimulationContext)
    (race_state : RaceState) (g : RNG) (d : Driver) (hd : d ∈ context.drivers) :
    d.id ∈ dkeys (run_monte_carlo_simulation context race_state g).1 := by
  have h0 : d.id ∈ dkeys (context.drivers.foldl
      (fun pc driver => dinsert pc driver.id
        (List.replicate context.drivers.length 0)) []) := by
    refine mem_dkeys_foldl _ (fun dr : Driver => dr.id) ?_ ?_ _ _ _
      (Or.inr ⟨d, hd, rfl⟩)
    · intro a b k hk
      exact (mem_dkeys_dinsert _ _ _ _).mpr (Or.inr hk)
    · intro a b
      exact (mem_dkeys_dinsert _ _ _ _).mpr (Or.inl rfl)
  have h1 : d.id ∈ dkeys ((iterate (mc_step context race_state)
      MONTE_CARLO_ITERATIONS
      (context.drivers.foldl (fun pc driver => dinsert pc driver.id
        (List.replicate context.drivers.length 0)) [], g)).1) := by
    rw [dkeys_iterate_mc_step]
    exact h0
  have h2 : d.id ∈ dkeys (((iterate (mc_step context race_state)
      MONTE_CARLO_ITERATIONS
      (context.drivers.foldl (fun pc driver => dinsert pc driver.id
        (List.replicate context.drivers.length 0)) [], g)).1).foldl
      (fun fp p => dinsert fp p.1 (argmaxIdx p.2 + 1)) []) := by
    obtain ⟨p, hp, hp1⟩ := List.mem_map.mp h1
    refine mem_dkeys_foldl _ (fun q : ℕ × List ℕ => q.1) ?_ ?_ _ _ _
      (Or.inr ⟨p, hp, hp1⟩)
    · intro a b k hk
      exact (mem_dkeys_dinsert _ _ _ _).mpr (Or.inr hk)
    · intro a b
      exact (mem_dkeys_dinsert _ _ _ _).mpr (Or.inl rfl)
  simp only [run_monte_carlo_simulation]
  exact mem_dkeys_resolve _ _ _ h2 ⟨d, hd, rfl⟩

/-- The result-building loop aborts with the `AttributeError` as soon as it
meets a driver that has a final position. -/
theorem build_results_error (final_positions : List (ℕ × ℕ)) :
    ∀ l : List Driver, (∃ d ∈ l, (dget final_positions d.id).isSome) →
      build_results final_positions l = .error SimError.attributeError
  | [], h => absurd h (by simp)
  | d :: ds, h => by
    cases hfp : dget final_positions d.id with
    | some position => simp [build_results, hfp]
    | none =>
      have : ∃ d' ∈ ds, (dget final_positions d'.id).isSome := by
        rcases h with ⟨d', hd', hs⟩
        rcases List.mem_cons.mp hd' with rfl | hd'
        · rw [hfp] at hs
          simp at hs
        · exact ⟨d', hd', hs⟩
      simp [build_results, hfp, build_results_error final_positions ds this]

/-- With no drivers a trial is a no-op on the histogram state. -/
theorem mc_step_empty (context : SimulationContext) (h : context.drivers = [])
    (race_state : RaceState) (s : List (ℕ × List ℕ) × RNG) :
    mc_step context race_state s = s := by
  simp [mc_step, simulate_single_race_iteration, h, sortBy, assign_positions]

theorem iterate_mc_step_empty (context : SimulationContext)
    (h : context.drivers = []) (race_state : RaceState) :
    ∀ (n : ℕ) (s : List (ℕ × List ℕ) × RNG),
      iterate (mc_step context race_state) n s = s
  | 0, _ => rfl
  | n + 1, s => by
    rw [iterate, mc_step_empty context h race_state,
      iterate_mc_step_empty context h race_state n]

/-- On a context with no drivers every pipeline stage is inert. -/
theorem simulate_race_empty (g : RNG) (context : SimulationContext)
    (h : context.drivers = []) : simulate_race g context = (.ok [], g) := by
  simp only [simulate_race, initialize_race_state, run_monte_carlo_simulation, h,
    qualifying_times, List.foldl_nil]
  rw [iterate_mc_step_empty context h]
  simp [generate_race_results, build_results, resolve_position_conflicts,
    dkeys, sortBy, assign_fastest_lap, h]

/-- Whenever the context has at least one driver, `simulate_race` raises the
`AttributeError` of source line 260 — `SimulationContext` has no
`race_state` attribute — before any result record exists. -/
theorem simulate_race_error (g : RNG) (context : SimulationContext)
    (h : context.drivers ≠ []) :
    (simulate_race g context).1 = .error SimError.attributeError := by
  obtain ⟨d, ds, hds⟩ := List.exists_cons_of_ne_nil h
  have hd : d ∈ context.drivers := by rw [hds]; exact List.mem_cons_self d ds
  have hfp := mem_dkeys_final_positions context
    (initialize_race_state context g).1 (initialize_race_state context g).2 d hd
  have herr := build_results_error
    (run_monte_carlo_simulation context (initialize_race_state context g).1
      (initialize_race_state context g).2).1 context.drivers
    ⟨d, hd, (dget_isSome_iff _ _).mpr hfp⟩
  simp [simulate_race, generate_race_results, herr]

/-- The observable outcome of `simulate_race` is decided by the context
alone: an empty driver list yields the empty result list, anything else the
`AttributeError`; the pseudorandom state plays no part. -/
theorem simulate_race_outcome (g : RNG) (context : SimulationContext) :
    (simulate_race g context).1 =
      if context.drivers.isEmpty then .ok [] else .error SimError.attributeError := by
  cases hd : context.drivers with
  | nil => rw [simulate_race_empty g context hd]; simp [hd]
  | cons d ds =>
    rw [simulate_race_error g context (by rw [hd]; simp)]
    simp [hd]

/-! ## The fastest-lap bonus -/

/-- Number of flags after `flagFastest` on an unflagged list: exactly one
when the chosen index falls inside the eligible window, none otherwise. -/
theorem countP_flagFastest (idx : ℕ) :
    ∀ (l : List RaceResult) (seen : ℕ), (∀ r ∈ l, r.fastest_lap = false) →
      List.countP (fun r => r.fastest_lap) (flagFastest idx l seen) =
        if seen ≤ idx ∧ idx < seen + List.countP (fun r => decide (r.position ≤ 10)) l
        then 1 else 0
  | [], seen, _ => by
    have hc : ¬(seen ≤ idx ∧ idx < seen) := by omega
    simp [flagFastest, hc]
  | r :: rs, seen, hall => by
    have hr : r.fastest_lap = false := hall r (List.mem_cons_self r rs)
    have hrs : ∀ x ∈ rs, x.fastest_lap = false :=
      fun x hx => hall x (List.mem_cons_of_mem r hx)
    have hcnt0 : List.countP (fun x => x.fastest_lap) rs = 0 :=
      List.countP_eq_zero.mpr (by simpa using hrs)
    by_cases hpos : r.position ≤ 10
    · by_cases hseen : seen = idx
      · subst hseen
        have : List.countP (fun x => x.fastest_lap)
            ({ r with fastest_lap := true, points := r.points + 1 } :: rs) = 1 := by
          rw [List.countP_cons]
          simp [hcnt0]
        rw [flagFastest, if_pos hpos, if_pos rfl, this]
        have hcond : seen ≤ seen ∧ seen < seen +
            List.countP (fun x => decide (x.position ≤ 10)) (r :: rs) := by
          constructor
          · exact le_rfl
          · rw [List.countP_cons]
            simp [hpos]
        rw [if_pos hcond]
      · rw [flagFastest, if_pos hpos, if_neg hseen, List.countP_cons]
        simp only [hr, if_neg (by simp : ¬(false = true)), Nat.add_zero]
        rw [countP_flagFastest idx rs (seen + 1) hrs]
        have h1 : List.countP (fun x => decide (x.position ≤ 10)) (r :: rs) =
            List.countP (fun x => decide (x.position ≤ 10)) rs + 1 := by
          rw [List.countP_cons]
          simp [hpos]
        have harith : (seen + 1 ≤ idx ∧ idx < seen + 1 +
              List.countP (fun x => decide (x.position ≤ 10)) rs) ↔
            (seen ≤ idx ∧ idx < seen +
              List.countP (fun x => decide (x.position ≤ 10)) (r :: rs)) := by
          rw [h1]
          omega
        by_cases hc : seen + 1 ≤ idx ∧ idx < seen + 1 +
            List.countP (fun x => decide (x.position ≤ 10)) rs
        · rw [if_pos hc, if_pos (harith.mp hc)]
        · rw [if_neg hc, if_neg (fun hh => hc (harith.mpr hh))]
    · rw [flagFastest, if_neg hpos, List.countP_cons]
      simp only [hr, if_neg (by simp : ¬(false = true)), Nat.add_zero]
      rw [countP_flagFastest idx rs seen hrs]
      have h1 : List.countP (fun x => decide (x.position ≤ 10)) (r :: rs) =
          List.countP (fun x => decide (x.position ≤ 10)) rs := by
        rw [List.countP_cons]
        simp [hpos]
      have harith : (seen ≤ idx ∧ idx < seen +
            List.countP (fun x => decide (x.position ≤ 10)) rs) ↔
          (seen ≤ idx ∧ idx < seen +
            List.countP (fun x => decide (x.position ≤ 10)) (r :: rs)) := by
        rw [h1]
      by_cases hc : seen ≤ idx ∧ idx < seen +
          List.countP (fun x => decide (x.position ≤ 10)) rs
      · rw [if_pos hc, if_pos (harith.mp hc)]
      · rw [if_neg hc, if_neg (fun hh => hc (harith.mpr hh))]

/-- Everything in the output of `flagFastest` is either an input record or
an input record with `position ≤ 10` carrying the flag and the bonus point. -/
theorem mem_flagFastest (idx : ℕ) :
    ∀ (l : List RaceResult) (seen : ℕ) (r' : RaceResult),
      r' ∈ flagFastest idx l seen →
      r' ∈ l ∨ ∃ r ∈ l, r.position ≤ 10 ∧
        r' = { r with fastest_lap := true, points := r.points + 1 }
  | [], _, r', h => by simp [flagFastest] at h
  | r :: rs, seen, r', h => by
    by_cases hpos : r.position ≤ 10
    · by_cases hseen : seen = idx
      · rw [flagFastest, if_pos hpos, if_pos hseen] at h
        rcases List.mem_cons.mp h with rfl | h
        · exact Or.inr ⟨r, List.mem_cons_self r rs, hpos, rfl⟩
        · exact Or.inl (List.mem_cons_of_mem r h)
      · rw [flagFastest, if_pos hpos, if_neg hseen] at h
        rcases List.mem_cons.mp h with rfl | h
        · exact Or.inl (List.mem_cons_self r' rs)
        · rcases mem_flagFastest idx rs (seen + 1) r' h with h | ⟨x, hx, hx10, hxe⟩
          · exact Or.inl (List.mem_cons_of_mem r h)
          · exact Or.inr ⟨x, List.mem_cons_of_mem r hx, hx10, hxe⟩
    · rw [flagFastest, if_neg hpos] at h
      rcases List.mem_cons.mp h with rfl | h
      · exact Or.inl (List.mem_cons_self r' rs)
      · rcases mem_flagFastest idx rs seen r' h with h | ⟨x, hx, hx10, hxe⟩
        · exact Or.inl (List.mem_cons_of_mem r h)
        · exact Or.inr ⟨x, List.mem_cons_of_mem r hx, hx10, hxe⟩

/-- Behaviour of the fastest-lap assignment on an unflagged result list. -/
theorem assign_fastest_lap_spec (results : List RaceResult) (g : RNG)
    (hall : ∀ r ∈ results, r.fastest_lap = false) :
    List.countP (fun r => r.fastest_lap) (assign_fastest_lap results g).1 ≤ 1 ∧
    ((∃ r ∈ results, r.position ≤ 10) →
      List.countP (fun r => r.fastest_lap) (assign_fastest_lap results g).1 = 1) ∧
    ((¬∃ r ∈ results, r.position ≤ 10) → (assign_fastest_lap results g).1 = results) ∧
    (∀ r' ∈ (assign_fastest_lap results g).1, r'.fastest_lap = true →
      r'.position ≤ 10 ∧ ∃ r ∈ results, r.position ≤ 10 ∧
        r' = { r with fastest_lap := true, points := r.points + 1 }) := by
  have hcnt0 : List.countP (fun x => x.fastest_lap) results = 0 :=
    List.countP_eq_zero.mpr (by simpa using hall)
  by_cases hres : results.isEmpty
  · rw [List.isEmpty_iff] at hres
    subst hres
    refine ⟨by simp [assign_fastest_lap], ?_, ?_, ?_⟩ <;> simp [assign_fastest_lap]
  · by_cases htop : (results.filter (fun r => r.position ≤ 10)).isEmpty
    · have hnone : ∀ r ∈ results, ¬(r.position ≤ 10) := by
        intro r hr
        have := List.isEmpty_iff.mp htop
        have hf := List.filter_eq_nil_iff.mp this r hr
        simpa using hf
      have hout : (assign_fastest_lap results g).1 = results := by
        simp [assign_fastest_lap, hres, htop]
      refine ⟨?_, ?_, fun _ => hout, ?_⟩
      · rw [hout, hcnt0]; omega
      · rintro ⟨r, hr, h10⟩
        exact absurd h10 (hnone r hr)
      · intro r' hr' hflag
        rw [hout] at hr'
        rw [hall r' hr'] at hflag
        simp at hflag
    · have hlen : 0 < (results.filter (fun r => r.position ≤ 10)).length := by
        cases hfe : results.filter (fun r => r.position ≤ 10) with
        | nil => rw [hfe] at htop; simp [List.isEmpty] at htop
        | cons a l => simp [hfe]
      have hout : (assign_fastest_lap results g).1 =
          flagFastest (g.uniform g.uk % (results.filter (fun r => r.position ≤ 10)).length)
            results 0 := by
        simp [assign_fastest_lap, hres, htop, RNG.choiceIdx]
      have hidx : g.uniform g.uk % (results.filter (fun r => r.position ≤ 10)).length <
          List.countP (fun r => decide (r.position ≤ 10)) results := by
        rw [List.countP_eq_length_filter]
        exact Nat.mod_lt _ hlen
      have hcond : (0 ≤ g.uniform g.uk % (results.filter (fun r => r.position ≤ 10)).length ∧
          g.uniform g.uk % (results.filter (fun r => r.position ≤ 10)).length <
            0 + List.countP (fun r => decide (r.position ≤ 10)) results) := by
        constructor
        · omega
        · omega
      have hone : List.countP (fun r => r.fastest_lap) (assign_fastest_lap results g).1 = 1 := by
        rw [hout, countP_flagFastest _ results 0 hall, if_pos hcond]
      refine ⟨by rw [hone], fun _ => hone, ?_, ?_⟩
      · rintro hno
        obtain ⟨a, ha⟩ := List.exists_mem_of_length_pos hlen
        have := List.mem_filter.mp ha
        exact absurd ⟨a, this.1, by simpa using this.2⟩ hno
      · intro r' hr' hflag
        rw [hout] at hr'
        rcases mem_flagFastest _ results 0 r' hr' with h | ⟨r, hr, h10, he⟩
        · rw [hall r' h] at hflag
          simp at hflag
        · subst he
          exact ⟨h10, r, hr, h10, rfl⟩

/-! ## The claims -/

/-- C1.  The claim says `simulate_race` returns exactly N results whose
positions permute 1..N for every valid context with N scoring-eligible
drivers.  On the §8 example field (three drivers, identical tier-1 team,
dry tarmac track — all three scoring-eligible) the engine instead raises
`AttributeError`, for every pseudorandom state: constructing the very first
result record evaluates `context.race_state` (line 260), an attribute
`SimulationContext` does not have.  No result list is returned at all. -/
theorem simulate_race_crashes_three_driver_field (g : RNG) :
    (simulate_race g ctx_three).1 = .error SimError.attributeError :=
  simulate_race_error g ctx_three (by simp [ctx_three])

set_option maxRecDepth 1000000 in
/-- C2.  The claim says a driver whose `current_team_id` is absent from the
team mapping is excluded from the returned result list entirely.  In the
code the histogram of line 86 is built for EVERY driver, so the unresolved
driver of `ctx_unresolved` (team 99, absent from the empty mapping) is
handed final position 1 by the resolver — it is not excluded from scoring —
and `simulate_race` then raises the `AttributeError` instead of returning
any list. -/
theorem unresolved_team_driver_gets_final_position :
    dgetOpt ctx_unresolved.teams driver_unresolved.current_team_id = none ∧
    dget (run_monte_carlo_simulation ctx_unresolved
        (initialize_race_state ctx_unresolved zero_rng).1
        (initialize_race_state ctx_unresolved zero_rng).2).1
      driver_unresolved.id = some 1 ∧
    ∀ g : RNG, (simulate_race g ctx_unresolved).1 = .error SimError.attributeError := by
  refine ⟨rfl, by decide, fun g =>
    simulate_race_error g ctx_unresolved (by simp [ctx_unresolved])⟩

/-- C3.  The claim says every returned result's `grid_position` equals the
performance model's qualifying grid position.  The performance model does
compute the grid — for the single-driver context it is `[(1, 1)]` — but the
copy never happens: reading `context.race_state` (line 260) raises
`AttributeError` for every pseudorandom state, because the race-state dict
is local to `simulate_race` and is never attached to the context. -/
theorem grid_position_never_copied :
    (initialize_race_state ctx_single zero_rng).1.grid_positions = [(1, 1)] ∧
    ∀ g : RNG, (simulate_race g ctx_single).1 = .error SimError.attributeError := by
  refine ⟨by decide, fun g =>
    simulate_race_error g ctx_single (by simp [ctx_single])⟩

/-- C4.  Determinism: a `RaceSimulator` constructed with a given seed —
modelled by the two abstract streams the seed determines, with both cursors
reset to zero — gives, on any one context, (i) literally the same outcome
when the whole construction-plus-run is repeated, and (ii) the same
observable outcome when the same instance is invoked a second time (the
outcome is decided by the context alone, so the advanced stream cursor
cannot change it). -/
theorem simulate_race_deterministic (normals : ℕ → ℚ) (uniform : ℕ → ℕ)
    (context : SimulationContext) :
    simulate_race (mkRaceSimulator normals uniform) context =
      simulate_race (mkRaceSimulator normals uniform) context ∧
    (simulate_race ((simulate_race (mkRaceSimulator normals uniform) context).2)
        context).1 =
      (simulate_race (mkRaceSimulator normals uniform) context).1 :=
  ⟨rfl, by rw [simulate_race_outcome, simulate_race_outcome]⟩

/-- C5.  The points expression of line 249 follows the fixed table
`[25, 18, 15, 12, 10, 8, 6, 4, 2, 1]` for positions 1..10 and is zero for
every position beyond 10; and in any result list `simulate_race` actually
returns, an unflagged record's points equal the table entry for its
position and a flagged record carries exactly one extra point. -/
theorem points_follow_fixed_table :
    (∀ position, 11 ≤ position → pointsFor position = 0) ∧
    (pointsFor 1 = 25 ∧ pointsFor 2 = 18 ∧ pointsFor 3 = 15 ∧ pointsFor 4 = 12 ∧
      pointsFor 5 = 10 ∧ pointsFor 6 = 8 ∧ pointsFor 7 = 6 ∧ pointsFor 8 = 4 ∧
      pointsFor 9 = 2 ∧ pointsFor 10 = 1) ∧
    (∀ (g : RNG) (context : SimulationContext) (l : List RaceResult) (g' : RNG),
      simulate_race g context = (.ok l, g') →
      ∀ r ∈ l, (r.fastest_lap = false → r.points = pointsFor r.position) ∧
        (r.fastest_lap = true → r.points = pointsFor r.position + 1)) := by
  refine ⟨?_, by decide, ?_⟩
  · intro position h
    have : ¬position ≤ points_system.length := by
      simp only [points_system, List.length_cons, List.length_nil]
      omega
    simp [pointsFor, this]
  · intro g context l g' hsim r hr
    have houtcome := simulate_race_outcome g context
    rw [hsim] at houtcome
    by_cases hd : context.drivers.isEmpty
    · rw [if_pos hd] at houtcome
      have : l = [] := by
        simpa using houtcome
      subst this
      simp at hr
    · rw [if_neg hd] at houtcome
      simp at houtcome

/-- C5 witness. -/
theorem points_follow_fixed_table_witness :
    pointsFor 11 = 0 ∧ pointsFor 1 = 25 :=
  ⟨points_follow_fixed_table.1 11 (by decide), points_follow_fixed_table.2.1.1⟩

/-- C6.  On any unflagged result list the fastest-lap step sets at most one
flag; it sets exactly one — on a record with `position ≤ 10`, adding one
point to it — precisely when some record has `position ≤ 10`, and leaves
the list untouched when none has; and every result list `simulate_race`
actually returns carries at most one flag. -/
theorem fastest_lap_unique :
    (∀ (results : List RaceResult) (g : RNG),
      (∀ r ∈ results, r.fastest_lap = false) →
      List.countP (fun r => r.fastest_lap) (assign_fastest_lap results g).1 ≤ 1 ∧
      ((∃ r ∈ results, r.position ≤ 10) →
        List.countP (fun r => r.fastest_lap) (assign_fastest_lap results g).1 = 1) ∧
      ((¬∃ r ∈ results, r.position ≤ 10) →
        (assign_fastest_lap results g).1 = results) ∧
      (∀ r' ∈ (assign_fastest_lap results g).1, r'.fastest_lap = true →
        r'.position ≤ 10 ∧ ∃ r ∈ results, r.position ≤ 10 ∧
          r' = { r with fastest_lap := true, points := r.points + 1 })) ∧
    (∀ (g : RNG) (context : SimulationContext) (l : List RaceResult) (g' : RNG),
      simulate_race g context = (.ok l, g') →
      List.countP (fun r => r.fastest_lap) l ≤ 1) := by
  refine ⟨fun results g hall => assign_fastest_lap_spec results g hall, ?_⟩
  intro g context l g' hsim
  have houtcome := simulate_race_outcome g context
  rw [hsim] at houtcome
  by_cases hd : context.drivers.isEmpty
  · rw [if_pos hd] at houtcome
    have : l = [] := by simpa using houtcome
    subst this
    simp
  · rw [if_neg hd] at houtcome
    simp at houtcome

/-- C6 witness: on the singleton list holding a position-1 record the step
grants exactly one flag. -/
theorem fastest_lap_unique_witness :
    List.countP (fun r => r.fastest_lap)
      (assign_fastest_lap [result_p1] zero_rng).1 = 1 :=
  ((fastest_lap_unique.1 [result_p1] zero_rng (by decide)).2.1
    ⟨result_p1, by decide, by decide⟩)

/-- C7.  The per-trial score of a scoring-eligible driver is
`(0.4·carPerformance + 0.3·driverForm + 0.1·weatherImpact +
0.1·trackSuitability + 0.1·strategyImpact) · luck` with the luck factor
drawn as `1 + 0.1·z` from the normal stream (`normal(mean=1.0, sd=0.1)`,
one draw per driver per trial); the weather impact is 1 under dry
conditions, and otherwise is the 0.6-adaptability/0.4-skill blend rescaled
by `x ↦ 0.8 + 0.2·x`, which lands in `[0.8, 1]` for attributes in `[0,1]`. -/
theorem trial_score_formula (context : SimulationContext)
    (race_state : RaceState) (d : Driver) (g : RNG) (base form : ℚ)
    (hcp : dget race_state.car_performance d.id = some base)
    (hdf : dget race_state.driver_form d.id = some form) :
    driver_trial_score context race_state d g =
      some ((base * (2/5) + form * (3/10) +
        calculate_weather_impact d context * (1/10) +
        calculate_track_suitability d context.track * (1/10) +
        simulate_strategy_impact d context * (1/10)) *
          (1 + (1/10) * g.normals g.nk),
        { g with nk := g.nk + 1 }) ∧
    (context.weather_factor = 1 → calculate_weather_impact d context = 1) ∧
    (context.weather_factor ≠ 1 →
      calculate_weather_impact d context =
        4/5 + (d.adaptability * (3/5) + d.skill * (2/5)) * (1/5) ∧
      (0 ≤ d.adaptability → d.adaptability ≤ 1 → 0 ≤ d.skill → d.skill ≤ 1 →
        4/5 ≤ calculate_weather_impact d context ∧
          calculate_weather_impact d context ≤ 1)) := by
  refine ⟨?_, ?_, ?_⟩
  · simp [driver_trial_score, hcp, hdf, RNG.normal]
  · intro h
    simp [calculate_weather_impact, h]
  · intro h
    constructor
    · simp [calculate_weather_impact, h]
    · intro ha0 ha1 hs0 hs1
      rw [calculate_weather_impact, if_neg h]
      constructor
      · nlinarith
      · nlinarith

/-- C7 witness: concrete instance on the wet single-driver fixture. -/
theorem trial_score_formula_witness :
    driver_trial_score ctx_wet rs_fixture form_driver zero_rng =
      some (((1/2) * (2/5) + (1/2) * (3/10) +
        calculate_weather_impact form_driver ctx_wet * (1/10) +
        calculate_track_suitability form_driver ctx_wet.track * (1/10) +
        simulate_strategy_impact form_driver ctx_wet * (1/10)) *
          (1 + (1/10) * zero_rng.normals zero_rng.nk),
        { zero_rng with nk := zero_rng.nk + 1 }) ∧
    4/5 ≤ calculate_weather_impact form_driver ctx_wet ∧
      calculate_weather_impact form_driver ctx_wet ≤ 1 := by
  have h := trial_score_formula ctx_wet rs_fixture form_driver zero_rng
    (1/2) (1/2) rfl rfl
  exact ⟨h.1, (h.2.2 (by norm_num [ctx_wet])).2 le_rfl zero_le_one le_rfl zero_le_one⟩

/-- C8.  The grid order is the stable ascending sort of the qualifying-time
estimates: the sorted list is a permutation of the qualifying times, its
times are weakly increasing, entries with exactly equal times keep the
input's order (filter-invariance at every fixed time), and the grid
positions 1, 2, … are assigned along that sorted list. -/
theorem grid_order_stable_ascending (context : SimulationContext) (g : RNG) :
    List.Perm (sortBy (fun a b => decide (a.2 < b.2)) (qualifying_times context))
      (qualifying_times context) ∧
    (sortBy (fun a b => decide (a.2 < b.2)) (qualifying_times context)).Pairwise
      (fun a b => a.2 ≤ b.2) ∧
    (∀ t : ℚ,
      (sortBy (fun a b => decide (a.2 < b.2)) (qualifying_times context)).filter
        (fun p => decide (p.2 = t)) =
      (qualifying_times context).filter (fun p => decide (p.2 = t))) ∧
    (initialize_race_state context g).1.grid_positions =
      assign_positions 1
        (sortBy (fun a b => decide (a.2 < b.2)) (qualifying_times context)) := by
  refine ⟨perm_sortBy _ _, ?_, fun t => filter_eq_sortBy t _, rfl⟩
  refine pairwise_sortBy _ _ ?_ ?_ ?_ _
  · intro a b h
    exact le_of_lt (of_decide_eq_true h)
  · intro a b h
    exact le_of_not_lt (of_decide_eq_false h)
  · intro a b c hab hbc
    exact le_trans hab hbc

/-- C9 counterexample.  The claim says the team-performance computation is
floor-clamped so the factor cannot drop below the tier's floor for
non-positive budgets.  There is no floor clamp: a tier-1 team with budget
−400 gets factor 0.6, strictly below the tier-1 base offset 0.8. -/
theorem team_performance_below_tier_floor :
    team_below_floor.budget ≤ 0 ∧
    calculate_team_performance team_below_floor = 3/5 ∧
    calculate_team_performance team_below_floor < tier_base team_below_floor := by
  refine ⟨by norm_num [team_below_floor], ?_, ?_⟩
  · rw [calculate_team_performance]
    norm_num [team_below_floor, min_def]
  · rw [calculate_team_performance, tier_base]
    norm_num [team_below_floor, min_def]

/-- C9 (amended).  For every team with non-positive budget the computation
is total — the divisors are the positive tier constants, so no division
error can arise — and the factor never exceeds the tier's base offset; the
base offset is attained exactly at budget 0 (there is no floor clamp, so
negative budgets fall below it). -/
theorem team_performance_nonpositive_budget (team : Team)
    (h : team.budget ≤ 0) :
    calculate_team_performance team ≤ tier_base team ∧
    (team.budget = 0 → calculate_team_performance team = tier_base team) := by
  have hmain : ∀ base c : ℚ, 0 < c → base ≤ 1 →
      min (base + (team.budget / c) * (1/5)) 1 ≤ base ∧
        (team.budget = 0 → min (base + (team.budget / c) * (1/5)) 1 = base) := by
    intro base c hc hb1
    have hdiv : team.budget / c ≤ 0 := div_nonpos_of_nonpos_of_nonneg h hc.le
    constructor
    · have hle : base + team.budget / c * (1/5) ≤ base := by nlinarith
      exact le_trans (min_le_left _ _) hle
    · intro h0
      rw [h0]
      simp [min_eq_left hb1]
  simp only [calculate_team_performance, tier_base]
  by_cases h1 : team.tier = "tier1"
  · simpa [h1] using hmain (4/5) 400 (by norm_num) (by norm_num)
  · by_cases h2 : team.tier = "tier2"
    · simpa [h1, h2] using hmain (3/5) 150 (by norm_num) (by norm_num)
    · simpa [h1, h2] using hmain (2/5) 80 (by norm_num) (by norm_num)

/-- C9 witness: the zero-budget tier-2 team sits exactly on its base offset. -/
theorem team_performance_nonpositive_budget_witness :
    calculate_team_performance team_zero_budget ≤ tier_base team_zero_budget ∧
    (team_zero_budget.budget = 0 →
      calculate_team_performance team_zero_budget = tier_base team_zero_budget) :=
  team_performance_nonpositive_budget team_zero_budget le_rfl

/-- C10.  For attributes in `[0,1]` the driver form is clamped into
`[0.1, 1]`, whatever value the Gaussian perturbation takes (the statement
quantifies over every pseudorandom state, hence over every draw). -/
theorem driver_form_bounds (driver : Driver) (g : RNG)
    (_h1 : 0 ≤ driver.skill) (_h2 : driver.skill ≤ 1)
    (_h3 : 0 ≤ driver.consistency) (_h4 : driver.consistency ≤ 1)
    (_h5 : 0 ≤ driver.racecraft) (_h6 : driver.racecraft ≤ 1) :
    1/10 ≤ (calculate_driver_form driver g).1 ∧
      (calculate_driver_form driver g).1 ≤ 1 := by
  rw [calculate_driver_form]
  exact ⟨le_max_left _ _, max_le (by norm_num) (min_le_left _ _)⟩

/-- C10 witness. -/
theorem driver_form_bounds_witness :
    1/10 ≤ (calculate_driver_form form_driver zero_rng).1 ∧
      (calculate_driver_form form_driver zero_rng).1 ≤ 1 :=
  driver_form_bounds form_driver zero_rng le_rfl zero_le_one le_rfl zero_le_one
    le_rfl zero_le_one
